import Mathlib

/-!
Verification of the fetch/cache core of the `ipfs-proxy` repository.

The Rust sources (`src/caching.rs`, `src/ipfs_client.rs`,
`entity/src/ipfs_object.rs`, `migration/src/m20220101_000001_create_table.rs`)
are shallowly embedded below: pure string manipulation becomes Lean string
functions working on `String.data`, filesystem effects become explicit state
passing over a `Fsys` record, the database table becomes a list of rows, and
external libraries (the `cid` CID parser, the `mime_guess` media-type
database, the `infer` magic-number sniffer, the SeaORM row lookup) are
abstracted as function parameters.
-/

namespace IpfsProxy

/-! ## String helpers

Rust's `str::split('/')`, `Vec::join("/")`, `str::ends_with('/')` and
`str::strip_prefix` are modelled on the underlying character lists. -/

/-- Rust `base_uri.split('/')` (an empty string yields `[""]`,
a trailing slash yields a trailing `""`). -/
def splitSlash (s : String) : List String :=
  (s.data.splitOn '/').map String.mk

/-- Rust `Vec::<&str>::join("/")`. -/
def joinSlash (l : List String) : String :=
  String.mk (List.intercalate ['/'] (l.map String.data))

/-- Rust `s.ends_with('/')`. -/
def endsWithSlash (s : String) : Bool :=
  s.data.getLast? == some '/'

/-- Rust `s.strip_prefix(pre)`. -/
def strip_prefix (pre s : String) : Option String :=
  if pre.data.isPrefixOf s.data then some (String.mk (s.data.drop pre.data.length))
  else none

theorem joinSlash_splitSlash (s : String) : joinSlash (splitSlash s) = s := by
  have hdata : ((s.data.splitOn '/').map String.mk).map String.data = s.data.splitOn '/' := by
    rw [List.map_map]
    exact List.map_id'' (fun l => rfl) _
  simp only [joinSlash, splitSlash, hdata]
  have h := List.intercalate_splitOn s.data '/'
  rw [h]

theorem splitSlash_ne_nil (s : String) : splitSlash s ≠ [] := by
  simp only [splitSlash, ne_eq, List.map_eq_nil_iff]
  simp only [List.splitOn]
  exact List.splitOnP_ne_nil _ _

theorem intercalate_cons_cons (sep x y : List Char) (t : List (List Char)) :
    List.intercalate sep (x :: y :: t) = x ++ sep ++ List.intercalate sep (y :: t) := by
  simp [List.intercalate, List.append_assoc]

theorem joinSlash_cons (a : String) (l : List String) (h : l ≠ []) :
    joinSlash (a :: l) = a ++ "/" ++ joinSlash l := by
  obtain ⟨b, t, rfl⟩ := List.exists_cons_of_ne_nil h
  apply String.ext
  simp only [joinSlash, String.data_append, List.map]
  rw [intercalate_cons_cons]

theorem joinSlash_append_singleton (l : List String) (a : String) (h : l ≠ []) :
    joinSlash (l ++ [a]) = joinSlash l ++ "/" ++ a := by
  induction l with
  | nil => exact absurd rfl h
  | cons x t ih =>
    cases t with
    | nil =>
      apply String.ext
      simp only [joinSlash, List.map, String.data_append, List.nil_append,
        List.cons_append]
      rw [intercalate_cons_cons]
      simp [List.intercalate]
    | cons y u =>
      have hne : (y :: u) ≠ [] := by simp
      have h1 : (y :: u) ++ [a] ≠ [] := by simp
      rw [show (x :: y :: u) ++ [a] = x :: ((y :: u) ++ [a]) from rfl,
        joinSlash_cons x _ h1, ih hne, joinSlash_cons x _ hne]
      simp [String.append_assoc]

theorem endsWithSlash_append_slash (s : String) :
    endsWithSlash (s ++ "/") = true := by
  simp only [endsWithSlash, String.data_append]
  show ((s.data ++ ['/']).getLast? == some '/') = true
  rw [List.getLast?_concat]
  rfl

/-! ## `check_ipfs_url` (src/ipfs_client.rs)

The CID parser of the external `cid` crate is abstracted as the parameter
`isValidCid`. -/

/-- Embedding of `check_ipfs_url`: strip the literal prefix `ipfs://`, split
the remainder on `/`, and require the first segment to parse as a CID. -/
def check_ipfs_url (isValidCid : String → Bool) (ipfs_url : String) :
    Except String String :=
  match strip_prefix "ipfs://" ipfs_url with
  | none => .error ("Not an IPFS URL: " ++ ipfs_url)
  | some base_uri =>
    let splits := splitSlash base_uri
    match splits.head? with
    | none => .error ("Not an IPFS URL: " ++ ipfs_url ++ ", no CID on first split")
    | some first =>
      if isValidCid first then .ok base_uri
      else .error ("CID is invalid for " ++ ipfs_url)

/-! ## `caching_filename` (src/caching.rs)

The media-type database of the external `mime_guess` crate is abstracted as
`mimeEmpty`, where `mimeEmpty seg = true` models
`mime_guess::from_path(seg).is_empty()` (no recognizable extension).
`caching_resolve` returns both the resolved filename and the `cache_dir`
that `create_dir_all` receives when the `create` flag is set; the source
computes both in one body. -/

/-- The `is_directory` flag of `caching_filename`: true on a trailing
slash; otherwise, for the exact hint `text/html`, true when the media-type
guess for the last element of `splits` is empty. -/
def is_directory_flag (mimeEmpty : String → Bool) (base_uri : String)
    (splits : List String) (content_type : Option String) : Bool :=
  if endsWithSlash base_uri then true
  else
    match content_type with
    | some ct =>
      if ct = "text/html" then
        match splits.getLast? with
        | some filename => mimeEmpty filename
        | none => false
      else false
    | none => false

def caching_resolve (isValidCid mimeEmpty : String → Bool)
    (ipfs_url directory : String) (content_type : Option String) :
    Except String (String × String) :=
  match check_ipfs_url isValidCid ipfs_url with
  | .error e => .error e
  | .ok base_uri =>
    let splits := directory :: splitSlash base_uri
    let is_directory : Bool := is_directory_flag mimeEmpty base_uri splits content_type
    let cache_dir := joinSlash splits
    if is_directory then
      .ok (cache_dir ++ "/index.html", cache_dir)
    else
      let filename := (splits.getLast?).getD ""
      let cache_dir := joinSlash splits.dropLast
      .ok (cache_dir ++ "/" ++ filename, cache_dir)

/-- The filename returned by `caching_filename`. -/
def caching_filename (isValidCid mimeEmpty : String → Bool)
    (ipfs_url directory : String) (content_type : Option String) :
    Except String String :=
  (caching_resolve isValidCid mimeEmpty ipfs_url directory content_type).map (·.1)

/-! ## Filesystem model

The cache directory tree is modelled as an explicit state: regular files
with their byte contents (bytes as `List Nat`) and directories, both
addressed by their path components.  Path strings built by the resolver are
converted to components the way `std::path::Path` iterates the relative
paths this program constructs: split on `/`, empty components collapsed. -/

structure Fsys where
  files : List (List String × List Nat)
  dirs : List (List String)
deriving Repr, DecidableEq

/-- Components of a (relative) path string. -/
def pathComponents (s : String) : List String :=
  (splitSlash s).filter (fun c => c ≠ "")

def Fsys.lookupFile (fs : Fsys) (p : List String) : Option (List Nat) :=
  (fs.files.find? (fun e => e.1 == p)).map (·.2)

/-- `fs::create_dir_all`: every nonempty prefix of the directory path comes
to exist as a directory. -/
def Fsys.createDirAll (fs : Fsys) (d : List String) : Fsys :=
  { fs with
    dirs := (d.inits.filter (fun q => !q.isEmpty && !fs.dirs.contains q)) ++ fs.dirs }

/-- Directory `d` has an entry: some file or some other directory lies
directly inside it (used to model `read_dir(..).next().is_some()`). -/
def Fsys.hasEntry (fs : Fsys) (d : List String) : Bool :=
  fs.files.any (fun e => !e.1.isEmpty && e.1.dropLast == d) ||
  fs.dirs.any (fun e => !e.isEmpty && e.dropLast == d)

theorem lookupFile_createDirAll (fs : Fsys) (d p : List String) :
    (fs.createDirAll d).lookupFile p = fs.lookupFile p := rfl

/-! ## `get_caching` (src/caching.rs)

The SeaORM lookup of the `ipfs_object` row is abstracted as
`db : String → Option String`, giving the stored content type for a remote
url, and the `infer` crate's magic-number sniffing as `inferCt`. -/

structure Data where
  content_type : Option String
  filename : Option String
deriving Repr, DecidableEq

def get_caching (isValidCid mimeEmpty : String → Bool) (fs : Fsys)
    (db : String → Option String) (inferCt : List Nat → Option String)
    (directory ipfs_url : String) : Except String (Option Data) :=
  match caching_resolve isValidCid mimeEmpty ipfs_url directory none with
  | .error e => .error e
  | .ok fd =>
    match fs.lookupFile (pathComponents fd.1) with
    | some bytes =>
      .ok (some { content_type := ((db ipfs_url).elim (inferCt bytes) some),
                  filename := some fd.1 })
    | none =>
      if endsWithSlash ipfs_url then .ok none
      else get_caching isValidCid mimeEmpty fs db inferCt directory (ipfs_url ++ "/")
termination_by (if endsWithSlash ipfs_url then 0 else 1)
decreasing_by simp_all [endsWithSlash_append_slash]

/-- The number of invocations of `get_caching` (the entry call plus the
recursive directory-fallback calls) performed for a given input. -/
def get_caching_calls (isValidCid mimeEmpty : String → Bool) (fs : Fsys)
    (directory ipfs_url : String) : Nat :=
  match caching_resolve isValidCid mimeEmpty ipfs_url directory none with
  | .error _ => 1
  | .ok fd =>
    match fs.lookupFile (pathComponents fd.1) with
    | some _ => 1
    | none =>
      if endsWithSlash ipfs_url then 1
      else 1 + get_caching_calls isValidCid mimeEmpty fs directory (ipfs_url ++ "/")
termination_by (if endsWithSlash ipfs_url then 0 else 1)
decreasing_by simp_all [endsWithSlash_append_slash]

/-! ## `set_stream_caching` (src/caching.rs)

The byte stream is a list of chunk results; the temporary file created by
`tempfile::Builder` lives at the path `tmp`, distinct from every cache path
(its name is freshly random).  On a chunk error the function returns the
error and the temp file is dropped, which unlinks it; on success the temp
file is renamed onto the resolved filename. -/

/-- The loop of `set_stream_caching`: append each `Ok` chunk to the
accumulated temp-file contents, stop at the first `Err`. -/
def readStream : List (Except String (List Nat)) → List Nat → Except String (List Nat)
  | [], acc => .ok acc
  | .error e :: _, _ => .error e
  | .ok b :: rest, acc => readStream rest (acc ++ b)

/-- How many stream items the loop consumes (it stops on the first error). -/
def consumedChunks : List (Except String (List Nat)) → Nat
  | [] => 0
  | .error _ :: _ => 1
  | .ok _ :: rest => 1 + consumedChunks rest

/-- The temp-file contents after `k` loop iterations, provided the loop is
still running then (`none` once an error has already ended it). -/
def okPrefix : List (Except String (List Nat)) → Nat → Option (List Nat)
  | _, 0 => some []
  | [], _ + 1 => some []
  | .error _ :: _, _ + 1 => none
  | .ok b :: rest, k + 1 => (okPrefix rest k).map (b ++ ·)

def set_stream_caching (isValidCid mimeEmpty : String → Bool) (fs : Fsys)
    (tmp : List String) (ipfs_url directory : String)
    (content_type : Option String) (chunks : List (Except String (List Nat))) :
    Fsys × Except String Data :=
  match caching_resolve isValidCid mimeEmpty ipfs_url directory content_type with
  | .error e => (fs, .error e)
  | .ok fd =>
    let fs := fs.createDirAll (pathComponents fd.2)
    match readStream chunks [] with
    | .error e => (fs, .error e)
    | .ok content =>
      ({ fs with files := (pathComponents fd.1, content) ::
           fs.files.filter (fun e => e.1 != pathComponents fd.1) },
       .ok { content_type := content_type, filename := some fd.1 })

/-- The filesystem observable at the interruption point where the loop of
`set_stream_caching` has appended `written` to the temp file and the rename
has not happened. -/
def stream_write_state (fs : Fsys) (cache_dir tmp : List String)
    (written : List Nat) : Fsys :=
  let fs := fs.createDirAll cache_dir
  { fs with files := (tmp, written) :: fs.files }

/-! ## `delete_caching` (src/caching.rs)

`remove_file` failures are absorbed (`.ok()`), then the loop walks up the
parent chain: a directory whose listing fails ends the walk, a directory
with an entry ends the walk, an empty directory is removed (failures again
absorbed) and the walk moves to its parent. -/

/-- One upward step of the deletion walk per fuel unit; the fuel is a
structural-recursion bound only, `delete_walk` always supplies enough of it
(each iteration moves to the parent, which is one component shorter). -/
def delete_walk_go : Nat → Fsys → List String → Fsys
  | 0, fs, _ => fs
  | fuel + 1, fs, dir =>
    if fs.dirs.contains dir then
      if fs.hasEntry dir then fs
      else
        let fs' : Fsys := { fs with dirs := fs.dirs.erase dir }
        if dir = [] then fs'
        else delete_walk_go fuel fs' dir.dropLast
    else fs

def delete_walk (fs : Fsys) (dir : List String) : Fsys :=
  delete_walk_go (dir.length + 1) fs dir

def delete_caching (isValidCid mimeEmpty : String → Bool) (fs : Fsys)
    (directory ipfs_url : String) : Except String Fsys :=
  match caching_resolve isValidCid mimeEmpty ipfs_url directory none with
  | .error e => .error e
  | .ok fd =>
    let p := pathComponents fd.1
    let fs1 : Fsys := { fs with files := fs.files.filter (fun e => e.1 != p) }
    if p = [] then .ok fs1
    else .ok (delete_walk fs1 p.dropLast)

/-! ## `update_entry` (entity/src/ipfs_object.rs)

The `ipfs_object` table is a list of rows (the auto-increment `id` column
is left out of the row model; it plays no role in the claims).  The SeaORM
statement is `INSERT .. ON CONFLICT (remote_url) DO UPDATE SET
last_accessed_at = excluded.last_accessed_at`: the proposed row carries
`Utc::now()` in both timestamp columns, and on a `remote_url` collision
only `last_accessed_at` is overwritten, with that proposed value. -/

structure IpfsObjectRow where
  remote_url : String
  cached_at : Nat
  last_accessed_at : Nat
  content_type : String
  content_size : Int
deriving Repr, DecidableEq

def update_entry (db : List IpfsObjectRow) (now : Nat)
    (ipfs_url content_type : String) (content_size : Int) : List IpfsObjectRow :=
  if db.any (fun r => r.remote_url == ipfs_url) then
    db.map (fun r =>
      if r.remote_url == ipfs_url then { r with last_accessed_at := now } else r)
  else
    db ++ [{ remote_url := ipfs_url, cached_at := now, last_accessed_at := now,
             content_type := content_type, content_size := content_size }]

/-! ## Candidate gateways (src/ipfs_client.rs lines 126-141)

Instants are UTC times in milliseconds; `(now - t) / 1000` models
`chrono::Duration::num_seconds()` of `Utc::now() - t` for `t ≤ now`, and
the blocked-gateways map is an association list. -/

def gateway_not_blocked (blocked : List (String × Nat)) (now pause : Nat)
    (g : String) : Bool :=
  match (blocked.find? (fun e => e.1 == g)).map (·.2) with
  | none => true
  | some t => pause ≤ (now - t) / 1000

def candidate_urls (gateways : List String) (blocked : List (String × Nat))
    (now pause : Nat) (base_uri : String) : List String :=
  (gateways.filter (gateway_not_blocked blocked now pause)).map
    (fun g => g ++ "/" ++ base_uri)

/-! ## Disposition of an HTTP 200 response (src/ipfs_client.rs lines 175-227)

A 200 response carries the declared Content-Length, the Content-Type header
(passed verbatim to the cache writer), and the body stream.  The
disposition: if the declared length exceeds `max_content_length`, fail at
once without consuming the body; otherwise stream the body into the cache,
re-read the on-disk size, and if it exceeds the cap, delete the cache entry
and fail.  The returned triple is the filesystem after the call, the number
of body chunks consumed, and the result. -/

structure Response200 where
  content_length : Option Nat
  content_type : Option String
  chunks : List (Except String (List Nat))

def sizeMessage (n maxLen : Nat) : String :=
  "File is " ++ toString n ++ " bytes, maximum allowed is " ++ toString maxLen

def handle200_stream (isValidCid mimeEmpty : String → Bool) (fs : Fsys)
    (tmp : List String) (maxLen : Nat) (directory ipfs_url : String)
    (resp : Response200) : Fsys × Nat × Except String Data :=
  let n := consumedChunks resp.chunks
  match set_stream_caching isValidCid mimeEmpty fs tmp ipfs_url directory
      resp.content_type resp.chunks with
  | (fs', .error e) => (fs', n, .error e)
  | (fs', .ok data) =>
    let size := ((data.filename.bind
      (fun f => fs'.lookupFile (pathComponents f))).map List.length).getD 0
    if maxLen < size then
      match delete_caching isValidCid mimeEmpty fs' directory ipfs_url with
      | .error e => (fs', n, .error e)
      | .ok fs'' =>
        (fs'', n, .error (sizeMessage size maxLen ++
          ". Fetched and deleting cached file."))
    else (fs', n, .ok data)

def handle200 (isValidCid mimeEmpty : String → Bool) (fs : Fsys)
    (tmp : List String) (maxLen : Nat) (directory ipfs_url : String)
    (resp : Response200) : Fsys × Nat × Except String Data :=
  match resp.content_length with
  | some cl =>
    if maxLen < cl then (fs, 0, .error (sizeMessage cl maxLen))
    else handle200_stream isValidCid mimeEmpty fs tmp maxLen directory ipfs_url resp
  | none => handle200_stream isValidCid mimeEmpty fs tmp maxLen directory ipfs_url resp

/-! ## Schema (migration/src/m20220101_000001_create_table.rs and
entity/src/ipfs_object.rs)

The columns the `Migration::up` routine creates on the `ipfs_object` table,
the columns of the unique index it creates, the columns the
`DeriveEntityModel` struct `Model` declares, and the columns the
`update_entry` insert writes.  SeaORM renders the `Iden` variants and the
model fields in snake case. -/

def migration_up_columns : List String :=
  ["id", "remote_url", "cached_at", "last_accessed_at"]

def migration_unique_index_columns : List String :=
  ["remote_url"]

def ipfs_object_model_columns : List String :=
  ["id", "remote_url", "cached_at", "last_accessed_at", "content_type",
   "content_size"]

def update_entry_written_columns : List String :=
  ["remote_url", "cached_at", "last_accessed_at", "content_type",
   "content_size"]

/-! ## Lock discipline of `fetch_ipfs_data` (src/ipfs_client.rs)

The order of `BLOCKED_GATEWAYS` mutex events and network awaits in one
`fetch_ipfs_data` execution that reaches the gateway race, read off the
source: the guard taken at line 127 is bound for the rest of the function
body, so it is dropped only when the function returns; between those two
points the call awaits gateway responses (line 165) and, on a 200, streams
the body into the cache (line 193); on a 429 the handler at line 237 locks
the same (non-reentrant `tokio::sync`) mutex again while the outer guard is
still live. -/

inductive LockEv
  | acq
  | rel
  | mapOp
  | netEv
deriving Repr, DecidableEq

/-- Event trace of the race portion of `fetch_ipfs_data`: `got429` selects
the branch where some gateway answers 429 (the trace then ends at the inner
`lock().await`, which can never complete); otherwise the first response is
a 200 that is streamed and the function returns, dropping the guard. -/
def fetch_race_trace (got429 : Bool) : List LockEv :=
  [.acq, .mapOp, .netEv] ++
    (if got429 then [.acq] else [.netEv, .rel])

/-- Does some network event occur while at least one lock is held? -/
def netWhileLocked : List LockEv → Nat → Bool
  | [], _ => false
  | .acq :: r, d => netWhileLocked r (d + 1)
  | .rel :: r, d => netWhileLocked r (d - 1)
  | .mapOp :: r, d => netWhileLocked r d
  | .netEv :: r, d => decide (0 < d) || netWhileLocked r d

/-- Does some acquisition occur while the lock is already held? -/
def acqWhileLocked : List LockEv → Nat → Bool
  | [], _ => false
  | .acq :: r, d => decide (0 < d) || acqWhileLocked r (d + 1)
  | .rel :: r, d => acqWhileLocked r (d - 1)
  | .mapOp :: r, d => acqWhileLocked r d
  | .netEv :: r, d => acqWhileLocked r d

/-! ## Resolution lemmas -/

theorem joinSlash_dropLast_getLast (a : String) (l : List String) (h : l ≠ []) :
    joinSlash ((a :: l).dropLast) ++ "/" ++ ((a :: l).getLast?).getD "" =
      joinSlash (a :: l) := by
  have h2 : (a :: l) ≠ [] := by simp
  conv_rhs => rw [← List.dropLast_append_getLast h2]
  rw [List.getLast?_eq_getLast _ h2, Option.getD_some,
    joinSlash_append_singleton _ _ (by simp [List.dropLast_cons_of_ne_nil h])]

/-- The directory classification of `caching_filename`, in the claims'
phrasing: the base URI ends with `/`, or the hint is exactly `text/html`
and the media-type guesser finds no extension on the last segment. -/
def dirClass (g : String → Bool) (base : String) (hint : Option String) : Bool :=
  endsWithSlash base
    || (hint == some "text/html" && g ((splitSlash base).getLast?.getD ""))

/-- The `is_directory` flag computed by `caching_filename` coincides with
the claims' classification predicate `dirClass`. -/
theorem is_directory_flag_eq (g : String → Bool) (root base : String)
    (hint : Option String) :
    is_directory_flag g base (root :: splitSlash base) hint = dirClass g base hint := by
  obtain ⟨b, t, hbt⟩ := List.exists_cons_of_ne_nil (splitSlash_ne_nil base)
  have hlast : (root :: splitSlash base).getLast? = (splitSlash base).getLast? := by
    rw [hbt]; exact List.getLast?_cons_cons
  have hlast2 : (splitSlash base).getLast? =
      some ((splitSlash base).getLast?.getD "") := by
    rw [hbt, List.getLast?_eq_getLast _ (by simp : b :: t ≠ [])]
    rfl
  cases hint with
  | none =>
    rcases Bool.eq_false_or_eq_true (endsWithSlash base) with hs | hs <;>
      simp [is_directory_flag, dirClass, hs]
  | some ct =>
    rcases Bool.eq_false_or_eq_true (endsWithSlash base) with hs | hs
    · simp [is_directory_flag, dirClass, hs]
    · simp only [is_directory_flag, dirClass, hs, if_false, Bool.false_or, hlast]
      rw [hlast2]
      by_cases hct : ct = "text/html"
      · subst hct; simp
      · simp [hct, beq_eq_false_iff_ne.mpr hct]

theorem caching_resolve_eq (v g : String → Bool) (url root : String)
    (hint : Option String) (base : String)
    (hck : check_ipfs_url v url = .ok base) :
    caching_resolve v g url root hint =
      .ok (if dirClass g base hint
          then (root ++ "/" ++ base ++ "/index.html", root ++ "/" ++ base)
          else (root ++ "/" ++ base, joinSlash ((root :: splitSlash base).dropLast))) := by
  have hsne : splitSlash base ≠ [] := splitSlash_ne_nil base
  have hjoin : joinSlash (root :: splitSlash base) = root ++ "/" ++ base := by
    rw [joinSlash_cons _ _ hsne, joinSlash_splitSlash]
  have hfile : joinSlash ((root :: splitSlash base).dropLast) ++ "/" ++
      ((root :: splitSlash base).getLast?).getD "" = root ++ "/" ++ base := by
    rw [joinSlash_dropLast_getLast _ _ hsne, hjoin]
  simp only [caching_resolve, hck, is_directory_flag_eq]
  rcases Bool.eq_false_or_eq_true (dirClass g base hint) with hc | hc
  · rw [if_pos (by simp [hc]), if_pos (by simp [hc]), hjoin]
  · rw [if_neg (by simp [hc]), if_neg (by simp [hc]), ← hfile]

/-- Normal form of the resolved filename. -/
theorem caching_filename_eq (v g : String → Bool) (url root : String)
    (hint : Option String) (base : String)
    (hck : check_ipfs_url v url = .ok base) :
    caching_filename v g url root hint =
      .ok (if dirClass g base hint
          then root ++ "/" ++ base ++ "/index.html"
          else root ++ "/" ++ base) := by
  rw [caching_filename, caching_resolve_eq v g url root hint base hck]
  cases hc : dirClass g base hint <;> simp [hc, Except.map]

theorem lookupFile_cons_self (l : List (List String × List Nat))
    (d : List (List String)) (p : List String) (c : List Nat) :
    Fsys.lookupFile { files := (p, c) :: l, dirs := d } p = some c := by
  simp [Fsys.lookupFile, List.find?]

/-- Success normal form of `set_stream_caching`. -/
theorem set_stream_caching_ok (v g : String → Bool) (fs : Fsys)
    (tmp : List String) (url root : String) (hint : Option String)
    (chunks : List (Except String (List Nat))) (content : List Nat)
    (fd1 fd2 : String)
    (hres : caching_resolve v g url root hint = .ok (fd1, fd2))
    (hread : readStream chunks [] = .ok content) :
    set_stream_caching v g fs tmp url root hint chunks =
      ({ fs.createDirAll (pathComponents fd2) with
           files := (pathComponents fd1, content) ::
             (fs.createDirAll (pathComponents fd2)).files.filter
               (fun e => e.1 != pathComponents fd1) },
       .ok { content_type := hint, filename := some fd1 }) := by
  simp [set_stream_caching, hres, hread]

/-! ## Claim theorems -/

/-- **C2.** `caching_filename` classifies a URL as a directory exactly when
the base URI ends with `/`, or when the content-type hint is exactly
`"text/html"` and the last path segment has no extension the media-type
guesser recognizes; under directory classification the resolved filename is
`<cache_root>/<base_uri>/index.html`, otherwise `<cache_root>/<base_uri>`
itself (so `ipfs://.../metadata/5.html` with hint `text/html` and a guesser
that recognizes the `.html` extension resolves to `.../metadata/5.html`,
not to an `index.html` path). -/
theorem claim_C2_directory_classification
    (v g : String → Bool) (url root base : String) (hint : Option String)
    (hck : check_ipfs_url v url = .ok base) :
    caching_filename v g url root hint =
      .ok (if endsWithSlash base
              || (hint == some "text/html" && g ((splitSlash base).getLast?.getD ""))
          then root ++ "/" ++ base ++ "/index.html"
          else root ++ "/" ++ base) :=
  caching_filename_eq v g url root hint base hck

/-- Witness for C2: scenario S4 of the spec, with a media-type guesser that
recognizes the `.html` extension (`mimeEmpty "5.html" = false`). -/
theorem claim_C2_witness :
    caching_filename (fun _ => true) (fun s => s == "metadata")
      "ipfs://cid/metadata/5.html" "tmp/ipfs" (some "text/html") =
      .ok "tmp/ipfs/cid/metadata/5.html" := by
  have h := claim_C2_directory_classification (fun _ => true) (fun s => s == "metadata")
    "ipfs://cid/metadata/5.html" "tmp/ipfs" "cid/metadata/5.html"
    (some "text/html") rfl
  rw [h]
  rfl

/-- **C10.** The directory classification tests the content-type hint by
exact string equality with `"text/html"`: for every other hint — including
a parameterized HTML media type such as `"text/html; charset=utf-8"`,
which `fetch_ipfs_data` passes verbatim from the gateway's Content-Type
header — the URL is classified as a file, and a 200 response carrying that
header is stored at `<cache_root>/<base_uri>`, not at an `index.html`
path. -/
theorem claim_C10_exact_hint_equality
    (v g : String → Bool) (url root base ct : String)
    (hck : check_ipfs_url v url = .ok base)
    (hslash : endsWithSlash base = false)
    (hct : ct ≠ "text/html") :
    caching_filename v g url root (some ct) = .ok (root ++ "/" ++ base) ∧
    ∀ (fs : Fsys) (tmp : List String) (maxLen : Nat)
      (chunks : List (Except String (List Nat))) (content : List Nat),
      readStream chunks [] = .ok content →
      content.length ≤ maxLen →
      (handle200 v g fs tmp maxLen root url
          { content_length := none, content_type := some ct, chunks := chunks }).2.2 =
        .ok { content_type := some ct, filename := some (root ++ "/" ++ base) } ∧
      (handle200 v g fs tmp maxLen root url
          { content_length := none, content_type := some ct, chunks := chunks }).1.lookupFile
          (pathComponents (root ++ "/" ++ base)) = some content := by
  have hdc : dirClass g base (some ct) = false := by
    simp [dirClass, hslash, beq_eq_false_iff_ne.mpr hct]
  have hres := caching_resolve_eq v g url root (some ct) base hck
  rw [hdc, if_neg (by simp)] at hres
  constructor
  · rw [caching_filename, hres]
    rfl
  · intro fs tmp maxLen chunks content hread hlen
    have hss := set_stream_caching_ok v g fs tmp url root (some ct) chunks content
      _ _ hres hread
    simp only [handle200, handle200_stream, hss]
    simp [lookupFile_cons_self, Nat.not_lt.mpr hlen]

/-- Witness for C10: the hint `"text/html; charset=utf-8"` on an
extensionless segment resolves to the plain base path, and a 200 response
carrying it is cached there. -/
theorem claim_C10_witness :
    caching_filename (fun _ => true) (fun _ => true) "ipfs://cid/foo" "c"
        (some "text/html; charset=utf-8") = .ok "c/cid/foo" ∧
    (handle200 (fun _ => true) (fun _ => true) ⟨[], []⟩ ["t"] 2 "c" "ipfs://cid/foo"
        { content_length := none, content_type := some "text/html; charset=utf-8",
          chunks := [.ok [7, 8]] }).2.2 =
      .ok { content_type := some "text/html; charset=utf-8",
            filename := some "c/cid/foo" } := by
  have h := claim_C10_exact_hint_equality (fun _ => true) (fun _ => true)
    "ipfs://cid/foo" "c" "cid/foo" "text/html; charset=utf-8" rfl rfl (by decide)
  exact ⟨h.1, (h.2 ⟨[], []⟩ ["t"] 2 [.ok [7, 8]] [7, 8] rfl (by decide)).1⟩

theorem string_append_right_cancel {a b c : String} (h : a ++ c = b ++ c) :
    a = b := by
  apply String.ext
  have h2 := congrArg String.data h
  simp only [String.data_append] at h2
  exact List.append_cancel_right h2

/-- **C4.** Once a gateway has been recorded in the blocked-gateways map at
instant `t` (milliseconds UTC), a candidate-set construction at any `now`
within `pause_gateway_seconds` of `t` excludes that gateway's request URL,
and once the entry is at least `pause_gateway_seconds` old the gateway is
included again. -/
theorem claim_C4_429_blocking
    (gateways : List String) (blocked : List (String × Nat))
    (now pause t : Nat) (g base : String)
    (hfind : (blocked.find? (fun e => e.1 == g)).map (·.2) = some t)
    (ht : t ≤ now) :
    (now < t + pause * 1000 →
      (g ++ "/" ++ base) ∉ candidate_urls gateways blocked now pause base) ∧
    (t + pause * 1000 ≤ now → g ∈ gateways →
      (g ++ "/" ++ base) ∈ candidate_urls gateways blocked now pause base) := by
  have hnb : gateway_not_blocked blocked now pause g =
      decide (pause ≤ (now - t) / 1000) := by
    simp [gateway_not_blocked, hfind]
  have hiff : pause ≤ (now - t) / 1000 ↔ t + pause * 1000 ≤ now := by
    rw [Nat.le_div_iff_mul_le (by omega : 0 < 1000)]
    omega
  constructor
  · intro hlt hmem
    obtain ⟨g', hg', heq⟩ := List.mem_map.mp hmem
    have hgg : g' = g :=
      string_append_right_cancel
        (by simpa [String.append_assoc] using heq)
    subst hgg
    have hfil := (List.mem_filter.mp hg').2
    rw [hnb] at hfil
    have := hiff.mp (of_decide_eq_true hfil)
    omega
  · intro hge hmem
    refine List.mem_map.mpr ⟨g, List.mem_filter.mpr ⟨hmem, ?_⟩, rfl⟩
    rw [hnb]
    exact decide_eq_true (hiff.mpr hge)

/-- Witness for C4: gateway blocked at t = 5000 ms with a 30 s pause is
excluded at now = 6000 ms and included again at now = 35000 ms. -/
theorem claim_C4_witness :
    ("https://gw1" ++ "/" ++ "cid/x") ∉
      candidate_urls ["https://gw1", "https://gw2"] [("https://gw1", 5000)]
        6000 30 "cid/x" ∧
    ("https://gw1" ++ "/" ++ "cid/x") ∈
      candidate_urls ["https://gw1", "https://gw2"] [("https://gw1", 5000)]
        35000 30 "cid/x" := by
  have h1 := claim_C4_429_blocking ["https://gw1", "https://gw2"]
    [("https://gw1", 5000)] 6000 30 5000 "https://gw1" "cid/x" (by decide) (by decide)
  have h2 := claim_C4_429_blocking ["https://gw1", "https://gw2"]
    [("https://gw1", 5000)] 35000 30 5000 "https://gw1" "cid/x" (by decide) (by decide)
  exact ⟨h1.1 (by decide), h2.2 (by decide) (by simp)⟩

/-- **C7.** For a `remote_url` that already has a row, `update_entry` with
any content-type and size arguments changes only `last_accessed_at` (set to
the call's now): the row count is preserved, the colliding row keeps its
stored `content_type`, `content_size` and `cached_at`, and rows with other
urls are untouched. -/
theorem claim_C7_upsert_preserves_metadata
    (db : List IpfsObjectRow) (now : Nat) (url ct : String) (sz : Int)
    (r : IpfsObjectRow) (hr : r ∈ db) (hurl : r.remote_url = url) :
    ({ r with last_accessed_at := now } ∈ update_entry db now url ct sz) ∧
    (∀ s ∈ db, s.remote_url ≠ url → s ∈ update_entry db now url ct sz) ∧
    (∀ s' ∈ update_entry db now url ct sz, s'.remote_url = url →
      ∃ s ∈ db, s.remote_url = url ∧ s'.content_type = s.content_type ∧
        s'.content_size = s.content_size ∧ s'.cached_at = s.cached_at ∧
        s'.last_accessed_at = now) ∧
    (update_entry db now url ct sz).length = db.length := by
  have hany : db.any (fun x => x.remote_url == url) = true :=
    List.any_eq_true.mpr ⟨r, hr, by simp [hurl]⟩
  simp only [update_entry, hany, if_true]
  refine ⟨List.mem_map.mpr ⟨r, hr, by simp [hurl]⟩, ?_, ?_, by simp⟩
  · intro s hs hne
    exact List.mem_map.mpr ⟨s, hs, by simp [beq_eq_false_iff_ne.mpr hne]⟩
  · intro s' hs' hurl'
    obtain ⟨s, hs, hmap⟩ := List.mem_map.mp hs'
    by_cases hb : s.remote_url = url
    · rw [if_pos (by simp [hb])] at hmap
      refine ⟨s, hs, hb, ?_, ?_, ?_, ?_⟩ <;> rw [← hmap]
    · rw [if_neg (by simp [hb])] at hmap
      rw [← hmap] at hurl'
      exact absurd hurl' hb

/-- Witness for C7: a second upsert for an existing url leaves the stored
metadata unchanged and bumps only `last_accessed_at`. -/
theorem claim_C7_witness :
    ({ remote_url := "ipfs://cid/1", cached_at := 10, last_accessed_at := 99,
       content_type := "application/json", content_size := 1023 } : IpfsObjectRow) ∈
      update_entry
        [{ remote_url := "ipfs://cid/1", cached_at := 10, last_accessed_at := 10,
           content_type := "application/json", content_size := 1023 }]
        99 "ipfs://cid/1" "text/plain" 7 := by
  have h := claim_C7_upsert_preserves_metadata
    [{ remote_url := "ipfs://cid/1", cached_at := 10, last_accessed_at := 10,
       content_type := "application/json", content_size := 1023 }]
    99 "ipfs://cid/1" "text/plain" 7
    { remote_url := "ipfs://cid/1", cached_at := 10, last_accessed_at := 10,
      content_type := "application/json", content_size := 1023 }
    (by simp) rfl
  exact h.1

/-- **C9 (code bug evidence).** In the traced gateway race of
`fetch_ipfs_data`, network I/O occurs while the `BLOCKED_GATEWAYS` mutex
is held (whether or not a 429 arrives), and on a 429 the same
non-reentrant mutex is acquired again while already held — the inner
`lock().await` can never complete.  This contradicts the claim that the
mutex is held only across map reads and writes. -/
theorem claim_C9_lock_held_across_net_io :
    netWhileLocked (fetch_race_trace true) 0 = true ∧
    netWhileLocked (fetch_race_trace false) 0 = true ∧
    acqWhileLocked (fetch_race_trace true) 0 = true := by decide

/-- **C5 (code bug evidence).** The table-creation migration provides only
`id`, `remote_url`, `cached_at` and `last_accessed_at`; the entity model
and the upsert also read and write `content_type` and `content_size`,
which the migration does not create (the unique index on `remote_url`
does exist). -/
theorem claim_C5_schema_mismatch :
    ("content_type" ∈ ipfs_object_model_columns ∧
      "content_type" ∈ update_entry_written_columns ∧
      "content_type" ∉ migration_up_columns) ∧
    ("content_size" ∈ ipfs_object_model_columns ∧
      "content_size" ∈ update_entry_written_columns ∧
      "content_size" ∉ migration_up_columns) ∧
    migration_unique_index_columns = ["remote_url"] := by decide

theorem get_caching_calls_of_slash (v g : String → Bool) (fs : Fsys)
    (root url : String) (h : endsWithSlash url = true) :
    get_caching_calls v g fs root url = 1 := by
  rw [get_caching_calls]
  split
  · rfl
  · split
    · rfl
    · simp [h]

/-- **C8.** On a read miss `get_caching` retries exactly once with `/`
appended when the URL has no trailing slash (and the appended call performs
no further recursion), a miss on a URL already ending in `/` returns
absent immediately, and the total number of invocations is at most two for
every input. -/
theorem claim_C8_single_retry
    (v g : String → Bool) (fs : Fsys) (db : String → Option String)
    (inferCt : List Nat → Option String) (root url : String) :
    (get_caching_calls v g fs root url ≤ 2) ∧
    (∀ fd, caching_resolve v g url root none = .ok fd →
      fs.lookupFile (pathComponents fd.1) = none →
      endsWithSlash url = false →
      get_caching v g fs db inferCt root url =
        get_caching v g fs db inferCt root (url ++ "/") ∧
      get_caching_calls v g fs root (url ++ "/") = 1) ∧
    (∀ fd, caching_resolve v g url root none = .ok fd →
      fs.lookupFile (pathComponents fd.1) = none →
      endsWithSlash url = true →
      get_caching v g fs db inferCt root url = .ok none) := by
  refine ⟨?_, ?_, ?_⟩
  · rcases Bool.eq_false_or_eq_true (endsWithSlash url) with hs | hs
    case inl => rw [get_caching_calls_of_slash v g fs root url hs]; omega
    case inr =>
      rw [get_caching_calls]
      split
      · omega
      · split
        · omega
        · simp only [hs, Bool.false_eq_true, if_false]
          rw [get_caching_calls_of_slash v g fs root (url ++ "/")
            (endsWithSlash_append_slash url)]
  · intro fd hres hmiss hs
    constructor
    · rw [get_caching, hres]
      simp [hmiss, hs]
    · exact get_caching_calls_of_slash v g fs root (url ++ "/")
        (endsWithSlash_append_slash url)
  · intro fd hres hmiss hs
    rw [get_caching, hres]
    simp [hmiss, hs]

/-- Witness for C8: a miss on a URL without trailing slash equals the
single slash-appended retry, which itself performs exactly one
invocation. -/
theorem claim_C8_witness :
    get_caching_calls (fun _ => true) (fun _ => true) ⟨[], []⟩ "c" "ipfs://cid/a" ≤ 2 ∧
    get_caching (fun _ => true) (fun _ => true) ⟨[], []⟩ (fun _ => none)
        (fun _ => none) "c" "ipfs://cid/a" =
      get_caching (fun _ => true) (fun _ => true) ⟨[], []⟩ (fun _ => none)
        (fun _ => none) "c" ("ipfs://cid/a" ++ "/") := by
  have h := claim_C8_single_retry (fun _ => true) (fun _ => true) ⟨[], []⟩
    (fun _ => none) (fun _ => none) "c" "ipfs://cid/a"
  exact ⟨h.1, (h.2.1 ("c/cid/a", "c/cid") rfl rfl rfl).1⟩

theorem lookupFile_cons_ne (l : List (List String × List Nat))
    (d : List (List String)) (p q : List String) (c : List Nat) (h : q ≠ p) :
    Fsys.lookupFile { files := (q, c) :: l, dirs := d } p =
      Fsys.lookupFile { files := l, dirs := d } p := by
  simp only [Fsys.lookupFile]
  rw [List.find?_cons_of_neg _ (by simp [h])]

/-- **C3.** Atomicity of `set_stream_caching`: with the resolved final path
initially absent and the (randomly named) temp path distinct from it, every
interruption point of the write loop — after any number of appended chunks
— leaves the final path absent; on a stream error the call returns that
error with the final path still absent and the temp file unlinked; on
success the final path holds the complete stream. -/
theorem claim_C3_stream_write_atomic
    (v g : String → Bool) (fs : Fsys) (tmp : List String)
    (url root : String) (hint : Option String)
    (chunks : List (Except String (List Nat)))
    (fd1 fd2 : String)
    (hres : caching_resolve v g url root hint = .ok (fd1, fd2))
    (htmp : tmp ≠ pathComponents fd1)
    (habs : fs.lookupFile (pathComponents fd1) = none)
    (htabs : fs.lookupFile tmp = none) :
    (∀ k c, okPrefix chunks k = some c →
      (stream_write_state fs (pathComponents fd2) tmp c).lookupFile
        (pathComponents fd1) = none) ∧
    (∀ e, readStream chunks [] = .error e →
      set_stream_caching v g fs tmp url root hint chunks =
        (fs.createDirAll (pathComponents fd2), .error e) ∧
      (fs.createDirAll (pathComponents fd2)).lookupFile (pathComponents fd1) = none ∧
      (fs.createDirAll (pathComponents fd2)).lookupFile tmp = none) ∧
    (∀ content, readStream chunks [] = .ok content →
      (set_stream_caching v g fs tmp url root hint chunks).1.lookupFile
          (pathComponents fd1) = some content ∧
      (set_stream_caching v g fs tmp url root hint chunks).2 =
        .ok { content_type := hint, filename := some fd1 }) := by
  have hcd : ∀ p, (fs.createDirAll (pathComponents fd2)).lookupFile p =
      fs.lookupFile p := fun p => lookupFile_createDirAll fs _ p
  have hsw : ∀ (w : List Nat) (p : List String), tmp ≠ p →
      (stream_write_state fs (pathComponents fd2) tmp w).lookupFile p =
        fs.lookupFile p := by
    intro w p hp
    simp only [stream_write_state, Fsys.lookupFile]
    rw [List.find?_cons_of_neg _ (by simp [hp])]
    rfl
  refine ⟨?_, ?_, ?_⟩
  · intro k c _
    rw [hsw c (pathComponents fd1) htmp, habs]
  · intro e herr
    refine ⟨?_, by rw [hcd, habs], by rw [hcd, htabs]⟩
    simp [set_stream_caching, hres, herr]
  · intro content hok
    rw [set_stream_caching_ok v g fs tmp url root hint chunks content fd1 fd2 hres hok]
    exact ⟨lookupFile_cons_self _ _ _ _, rfl⟩

/-- Witness for C3: a stream that errors on its second chunk leaves the
final path uncreated, both at the interruption point after the first chunk
and in the returned state. -/
theorem claim_C3_witness :
    (stream_write_state ⟨[], []⟩ (pathComponents "c/cid") ["t"] [1]).lookupFile
      (pathComponents "c/cid/a") = none ∧
    set_stream_caching (fun _ => true) (fun _ => true) ⟨[], []⟩ ["t"]
        "ipfs://cid/a" "c" none [.ok [1], .error "boom"] =
      (Fsys.createDirAll ⟨[], []⟩ (pathComponents "c/cid"), .error "boom") := by
  have h := claim_C3_stream_write_atomic (fun _ => true) (fun _ => true)
    ⟨[], []⟩ ["t"] "ipfs://cid/a" "c" none [.ok [1], .error "boom"]
    "c/cid/a" "c/cid" rfl (by decide) rfl rfl
  exact ⟨h.1 1 [1] rfl, (h.2.1 "boom" rfl).1⟩

/-! ## Deletion-walk lemmas -/

theorem hasEntry_of_file_child (fs : Fsys) (x : List String)
    (e : List String × List Nat) (he : e ∈ fs.files)
    (hne : e.1 ≠ []) (hd : e.1.dropLast = x) : fs.hasEntry x = true := by
  simp only [Fsys.hasEntry, Bool.or_eq_true, List.any_eq_true]
  refine Or.inl ⟨e, he, ?_⟩
  simp [hne, hd, List.isEmpty_iff]

theorem hasEntry_false_mono (A B : Fsys) (x : List String)
    (hf : B.files = A.files) (hd : ∀ y ∈ B.dirs, y ∈ A.dirs)
    (h : A.hasEntry x = false) : B.hasEntry x = false := by
  simp only [Fsys.hasEntry, Bool.or_eq_false_iff, List.any_eq_false] at h ⊢
  exact ⟨hf ▸ h.1, fun y hy => h.2 y (hd y hy)⟩

theorem delete_walk_go_files (fuel : Nat) :
    ∀ (fs : Fsys) (dir : List String), (delete_walk_go fuel fs dir).files = fs.files := by
  induction fuel with
  | zero => intro fs dir; rfl
  | succ n ih =>
    intro fs dir
    simp only [delete_walk_go]
    split
    · split
      · rfl
      · split
        · rfl
        · exact ih _ _
    · rfl

theorem delete_walk_go_dirs_subset (fuel : Nat) :
    ∀ (fs : Fsys) (dir x : List String),
      x ∈ (delete_walk_go fuel fs dir).dirs → x ∈ fs.dirs := by
  induction fuel with
  | zero => intro fs dir x hx; exact hx
  | succ n ih =>
    intro fs dir x hx
    simp only [delete_walk_go] at hx
    split at hx
    · split at hx
      · exact hx
      · split at hx
        · exact List.mem_of_mem_erase hx
        · exact List.mem_of_mem_erase (ih _ _ _ hx)
    · exact hx

theorem delete_walk_go_removed_prefix (fuel : Nat) :
    ∀ (fs : Fsys) (dir x : List String), dir.length < fuel →
      x ∈ fs.dirs → x ∉ (delete_walk_go fuel fs dir).dirs → x <+: dir := by
  induction fuel with
  | zero => intro fs dir x hlen; exact absurd hlen (Nat.not_lt_zero _)
  | succ n ih =>
    intro fs dir x hlen hx hout
    simp only [delete_walk_go] at hout
    split at hout
    · split at hout
      · exact absurd hx hout
      · split at hout
        · -- dir = [], result is the erase
          rename_i hdir
          by_cases hxd : x = dir
          · exact hxd ▸ List.prefix_refl x
          · exact absurd ((List.mem_erase_of_ne hxd).mpr hx) hout
        · rename_i hdir
          by_cases hxd : x = dir
          · exact hxd ▸ List.prefix_refl x
          · have hx' : x ∈ ((fs.dirs.erase dir)) := (List.mem_erase_of_ne hxd).mpr hx
            have hlen' : dir.dropLast.length < n := by
              have : dir.length ≠ 0 := by simpa [List.length_eq_zero] using hdir
              simp only [List.length_dropLast]; omega
            exact (ih _ dir.dropLast x hlen' hx' hout).trans (List.dropLast_prefix dir)
    · exact absurd hx hout

theorem delete_walk_go_removed_empty (fuel : Nat) :
    ∀ (fs : Fsys) (dir x : List String),
      x ∈ fs.dirs → x ∉ (delete_walk_go fuel fs dir).dirs →
      (delete_walk_go fuel fs dir).hasEntry x = false := by
  induction fuel with
  | zero => intro fs dir x hx hout; exact absurd hx hout
  | succ n ih =>
    intro fs dir x hx hout
    simp only [delete_walk_go] at hout ⊢
    by_cases hcon : fs.dirs.contains dir = true
    · rw [if_pos hcon] at hout ⊢
      by_cases hent : fs.hasEntry dir = true
      · rw [if_pos hent] at hout ⊢
        exact absurd hx hout
      · rw [if_neg hent] at hout ⊢
        have hentf : fs.hasEntry dir = false := by simpa using hent
        by_cases hdir : dir = []
        · rw [if_pos hdir] at hout ⊢
          have hxd : x = dir := by
            by_contra hxd
            exact hout ((List.mem_erase_of_ne hxd).mpr hx)
          subst hxd
          exact hasEntry_false_mono fs _ x rfl
            (fun y hy => List.mem_of_mem_erase hy) hentf
        · rw [if_neg hdir] at hout ⊢
          by_cases hx' : x ∈ (fs.dirs.erase dir)
          · exact ih _ dir.dropLast x hx' hout
          · have hxd : x = dir := by
              by_contra hxd
              exact hx' ((List.mem_erase_of_ne hxd).mpr hx)
            subst hxd
            refine hasEntry_false_mono fs _ x ?_ ?_ hentf
            · exact delete_walk_go_files n _ _
            · intro y hy
              exact List.mem_of_mem_erase (delete_walk_go_dirs_subset n _ _ y hy)
    · rw [if_neg hcon] at hout ⊢
      exact absurd hx hout

theorem delete_walk_go_survives (fuel : Nat) :
    ∀ (fs : Fsys) (dir x : List String), x ∈ fs.dirs →
      (∃ e ∈ fs.files, e.1 ≠ [] ∧ e.1.dropLast = x) →
      x ∈ (delete_walk_go fuel fs dir).dirs := by
  induction fuel with
  | zero => intro fs dir x hx _; exact hx
  | succ n ih =>
    intro fs dir x hx hchild
    obtain ⟨e, he, hne, hd⟩ := hchild
    simp only [delete_walk_go]
    split
    · split
      · exact hx
      · rename_i hent
        have hxd : x ≠ dir := by
          intro hxd
          subst hxd
          exact hent (by simp [hasEntry_of_file_child fs x e he hne hd])
        split
        · exact (List.mem_erase_of_ne hxd).mpr hx
        · exact ih _ dir.dropLast x ((List.mem_erase_of_ne hxd).mpr hx)
            ⟨e, he, hne, hd⟩
    · exact hx

/-- Counterexample to **C6** as stated: deleting the only file below the
cache root leaves every ancestor directory empty, and the walk removes the
emptied cache root `tmp/ipfs` itself (and the emptied `tmp` above it) —
the result has no directories at all — refuting "the cache root directory
itself and every directory above it are never removed". -/
theorem claim_C6_counterexample :
    delete_caching (fun _ => true) (fun _ => true)
        { files := [(["tmp", "ipfs", "cid", "a"], [7])],
          dirs := [["tmp"], ["tmp", "ipfs"], ["tmp", "ipfs", "cid"]] }
        "tmp/ipfs" "ipfs://cid/a" =
      .ok { files := [], dirs := [] } := rfl

/-- **C6 (amended).** `delete_caching` unlinks the resolved cache file if
it exists and walks upward through ancestor directories, removing each one
that has become empty and stopping at the first ancestor that is non-empty
or cannot be listed; the walk does **not** stop at the cache root, so an
emptied cache root (and emptied directories above it) are removed too;
missing-file and non-empty-directory errors are absorbed (the call
returns `.ok`).  Formally: the resulting files are the original ones minus
the resolved path; only prefixes of the resolved path's parent are ever
removed; every removed directory is empty in the resulting state; and a
directory holding some other surviving file is never removed. -/
theorem claim_C6_delete_caching_amended
    (v g : String → Bool) (fs : Fsys) (root url fd1 fd2 : String)
    (hres : caching_resolve v g url root none = .ok (fd1, fd2)) :
    ∃ fsOut, delete_caching v g fs root url = .ok fsOut ∧
      fsOut.files = fs.files.filter (fun e => e.1 != pathComponents fd1) ∧
      (∀ x ∈ fs.dirs, x ∉ fsOut.dirs → x <+: (pathComponents fd1).dropLast) ∧
      (∀ x ∈ fs.dirs, x ∉ fsOut.dirs → fsOut.hasEntry x = false) ∧
      (∀ x ∈ fs.dirs,
        (∃ e ∈ fs.files, e.1 ≠ pathComponents fd1 ∧ e.1 ≠ [] ∧ e.1.dropLast = x) →
        x ∈ fsOut.dirs) := by
  simp only [delete_caching, hres]
  by_cases hp : pathComponents fd1 = []
  · rw [if_pos hp]
    refine ⟨_, rfl, rfl, ?_, ?_, ?_⟩
    · intro x hx hout; exact absurd hx hout
    · intro x hx hout; exact absurd hx hout
    · intro x hx _; exact hx
  · rw [if_neg hp]
    refine ⟨_, rfl, ?_, ?_, ?_, ?_⟩
    · exact delete_walk_go_files _ _ _
    · intro x hx hout
      exact delete_walk_go_removed_prefix _
        { files := fs.files.filter (fun e => e.1 != pathComponents fd1),
          dirs := fs.dirs }
        (pathComponents fd1).dropLast x (Nat.lt_succ_self _) hx hout
    · intro x hx hout
      exact delete_walk_go_removed_empty _
        { files := fs.files.filter (fun e => e.1 != pathComponents fd1),
          dirs := fs.dirs }
        (pathComponents fd1).dropLast x hx hout
    · intro x hx hchild
      obtain ⟨e, he, hne1, hne2, hd⟩ := hchild
      exact delete_walk_go_survives _
        { files := fs.files.filter (fun e => e.1 != pathComponents fd1),
          dirs := fs.dirs }
        (pathComponents fd1).dropLast x hx
        ⟨e, List.mem_filter.mpr ⟨he, by simp [hne1]⟩, hne2, hd⟩

/-- Witness for the amended C6 (scenario S5's first half): deleting one of
two sibling files keeps the sibling and keeps their directory. -/
theorem claim_C6_witness :
    ∃ fsOut, delete_caching (fun _ => true) (fun _ => true)
        { files := [(["c", "cid", "m", "1"], [1]), (["c", "cid", "m", "2"], [2])],
          dirs := [["c"], ["c", "cid"], ["c", "cid", "m"]] }
        "c" "ipfs://cid/m/1" = .ok fsOut ∧
      fsOut.files = [(["c", "cid", "m", "2"], [2])] ∧
      ["c", "cid", "m"] ∈ fsOut.dirs := by
  obtain ⟨fsOut, h1, h2, h3, h4, h5⟩ :=
    claim_C6_delete_caching_amended (fun _ => true) (fun _ => true)
      { files := [(["c", "cid", "m", "1"], [1]), (["c", "cid", "m", "2"], [2])],
        dirs := [["c"], ["c", "cid"], ["c", "cid", "m"]] }
      "c" "ipfs://cid/m/1" "c/cid/m/1" "c/cid/m" rfl
  refine ⟨fsOut, h1, ?_, ?_⟩
  · rw [h2]; rfl
  · exact h5 ["c", "cid", "m"] (by simp)
      ⟨(["c", "cid", "m", "2"], [2]), by simp, by decide, by decide, rfl⟩

theorem lookupFile_eq_of_files_eq {A B : Fsys} (h : A.files = B.files)
    (p : List String) : A.lookupFile p = B.lookupFile p := by
  simp [Fsys.lookupFile, h]

theorem lookupFile_filter_ne (l : List (List String × List Nat))
    (d : List (List String)) (p : List String) :
    Fsys.lookupFile { files := l.filter (fun e => e.1 != p), dirs := d } p = none := by
  have h : List.find? (fun e => e.1 == p) (l.filter (fun e => e.1 != p)) = none := by
    rw [List.find?_eq_none]
    intro e he
    have h2 := (List.mem_filter.mp he).2
    simpa using h2
  simp [Fsys.lookupFile, h]

theorem delete_walk_lookupFile (fs : Fsys) (d p : List String) :
    (delete_walk fs d).lookupFile p = fs.lookupFile p :=
  lookupFile_eq_of_files_eq (delete_walk_go_files _ _ _) p

/-- Counterexample to **C1** as stated: a 200 response with no declared
Content-Length, Content-Type exactly `text/html` and a 2-byte body against
`max_content_length = 1` on an extensionless URL is stored (by write-time
directory classification) at `c/cid/foo/index.html`, but the deletion
before returning the SizeExceeded error re-resolves with no hint to
`c/cid/foo` and removes nothing: the call returns the error *and* the
oversized cache entry is still present. -/
theorem claim_C1_counterexample :
    (handle200 (fun _ => true) (fun _ => true) ⟨[], []⟩ ["t"] 1 "c" "ipfs://cid/foo"
        { content_length := none, content_type := some "text/html",
          chunks := [.ok [0, 1]] }).2.2 =
      .error "File is 2 bytes, maximum allowed is 1. Fetched and deleting cached file." ∧
    (handle200 (fun _ => true) (fun _ => true) ⟨[], []⟩ ["t"] 1 "c" "ipfs://cid/foo"
        { content_length := none, content_type := some "text/html",
          chunks := [.ok [0, 1]] }).1.lookupFile
      ["c", "cid", "foo", "index.html"] = some [0, 1] :=
  ⟨rfl, rfl⟩

/-- **C1 (amended).** For every 200 response whose declared Content-Length
exceeds `max_content_length`, the disposition fails immediately with
exactly the message `"File is <n> bytes, maximum allowed is <max>"`,
consuming zero body chunks and leaving the filesystem untouched.  For
every completed stream whose on-disk size exceeds the cap, the call
returns a SizeExceeded error after a deletion attempt, and the cache entry
is actually gone provided the write-time classification was the file one
(`dirClass` false under the response's content type) — when the write-time
hint `text/html` classified an extensionless URL as a directory, the
hint-free re-resolution diverges and the oversized `index.html` file
remains (see the counterexample). -/
theorem claim_C1_size_enforcement_amended
    (v g : String → Bool) (fs : Fsys) (tmp : List String) (maxLen : Nat)
    (root url base : String) (resp : Response200) :
    (∀ cl, resp.content_length = some cl → maxLen < cl →
      handle200 v g fs tmp maxLen root url resp =
        (fs, 0, .error (sizeMessage cl maxLen))) ∧
    (∀ content,
      (resp.content_length = none ∨
        ∃ cl, resp.content_length = some cl ∧ cl ≤ maxLen) →
      check_ipfs_url v url = .ok base →
      dirClass g base resp.content_type = false →
      readStream resp.chunks [] = .ok content →
      maxLen < content.length →
      (handle200 v g fs tmp maxLen root url resp).1.lookupFile
          (pathComponents (root ++ "/" ++ base)) = none ∧
      (handle200 v g fs tmp maxLen root url resp).2.2 =
        .error (sizeMessage content.length maxLen ++
          ". Fetched and deleting cached file.")) := by
  constructor
  · intro cl hcl hlt
    simp [handle200, hcl, hlt]
  · intro content hcl hck hdc hread hlen
    have hslash : endsWithSlash base = false := by
      rcases Bool.or_eq_false_iff.mp hdc with ⟨h1, _⟩
      exact h1
    have hres : caching_resolve v g url root resp.content_type =
        .ok (root ++ "/" ++ base, joinSlash ((root :: splitSlash base).dropLast)) := by
      rw [caching_resolve_eq v g url root resp.content_type base hck, hdc,
        if_neg (by simp)]
    have hresd : caching_resolve v g url root none =
        .ok (root ++ "/" ++ base, joinSlash ((root :: splitSlash base).dropLast)) := by
      rw [caching_resolve_eq v g url root none base hck]
      rw [if_neg (by simp [dirClass, hslash])]
    have hss := set_stream_caching_ok v g fs tmp url root resp.content_type
      resp.chunks content (root ++ "/" ++ base)
      (joinSlash ((root :: splitSlash base).dropLast)) hres hread
    have h200 : handle200 v g fs tmp maxLen root url resp =
        handle200_stream v g fs tmp maxLen root url resp := by
      rcases hcl with h | ⟨cl, hclv, hle⟩
      · simp only [handle200, h]
      · simp only [handle200, hclv]
        rw [if_neg (by omega)]
    obtain ⟨FS', hA, hA2⟩ : ∃ FS',
        set_stream_caching v g fs tmp url root resp.content_type resp.chunks =
          (FS', .ok { content_type := resp.content_type,
                      filename := some (root ++ "/" ++ base) }) ∧
        FS'.lookupFile (pathComponents (root ++ "/" ++ base)) = some content :=
      ⟨_, hss, lookupFile_cons_self _ _ _ _⟩
    have hdel : ∃ fsOut, delete_caching v g FS' root url = .ok fsOut ∧
        fsOut.lookupFile (pathComponents (root ++ "/" ++ base)) = none := by
      simp only [delete_caching, hresd]
      by_cases hp : pathComponents (root ++ "/" ++ base) = []
      · rw [if_pos hp]
        exact ⟨_, rfl, lookupFile_filter_ne _ _ _⟩
      · rw [if_neg hp]
        refine ⟨_, rfl, ?_⟩
        rw [delete_walk_lookupFile]
        exact lookupFile_filter_ne _ _ _
    obtain ⟨fsOut, hD, hD2⟩ := hdel
    have hmain : handle200 v g fs tmp maxLen root url resp =
        (fsOut, consumedChunks resp.chunks,
          .error (sizeMessage content.length maxLen ++
            ". Fetched and deleting cached file.")) := by
      rw [h200, handle200_stream, hA]
      simp [hA2, hlen, hD]
    exact ⟨by rw [hmain]; exact hD2, by rw [hmain]⟩

/-- Witness for the amended C1: scenario S2's declared length 1023 against
cap 1 produces exactly the claimed message with nothing consumed or
written, and an agreeing-classification stream oversize really is deleted
(`mimeEmpty = false`, so the write-time classification is the file one). -/
theorem claim_C1_witness :
    handle200 (fun _ => true) (fun _ => true) ⟨[], []⟩ ["t"] 1 "c" "ipfs://cid/foo"
        { content_length := some 1023, content_type := some "application/json",
          chunks := [.ok [0]] } =
      (⟨[], []⟩, 0, .error "File is 1023 bytes, maximum allowed is 1") ∧
    (handle200 (fun _ => true) (fun _ => false) ⟨[], []⟩ ["t"] 1 "c" "ipfs://cid/foo"
        { content_length := none, content_type := some "text/html",
          chunks := [.ok [0, 1]] }).1.lookupFile
      (pathComponents "c/cid/foo") = none := by
  have h1 := (claim_C1_size_enforcement_amended (fun _ => true) (fun _ => true)
    ⟨[], []⟩ ["t"] 1 "c" "ipfs://cid/foo" "cid/foo"
    { content_length := some 1023, content_type := some "application/json",
      chunks := [.ok [0]] }).1 1023 rfl (by omega)
  have h2 := (claim_C1_size_enforcement_amended (fun _ => true) (fun _ => false)
    ⟨[], []⟩ ["t"] 1 "c" "ipfs://cid/foo" "cid/foo"
    { content_length := none, content_type := some "text/html",
      chunks := [.ok [0, 1]] }).2 [0, 1] (Or.inl rfl) rfl (by decide) rfl
    (by decide)
  exact ⟨h1.trans (by rfl), h2.1⟩

end IpfsProxy
